import Mathlib

set_option maxRecDepth 4000

/-!
Shallow embedding of the Minecraft-protocol server (crates `server` and the
top-level `src` crate) and proofs about its wire codec and connection state
machine.

Byte buffers (`bytes::BytesMut`) are modelled as `List Nat`, each element a
byte value below 256; reading from the front of the buffer returns the value
together with the remaining buffer.  Machine integers are modelled as `Nat`
bit patterns (with explicit `% 2^w` where Rust truncates) or as `Int` where
the source works with signed values.  Rust `& 0x7F` and `>> 7` on unsigned
integers are `&&& 0x7F` and `>>> 7` on `Nat`.
-/

namespace Server

/-- The error enum `DataTypeError` from `server/src/protocol/data_types.rs`. -/
inductive DataTypeError where
  | outOfBytes (what : String)
  | malformed (what reason : String)
  | context (cause : DataTypeError) (description : String)
  deriving DecidableEq, Repr

/-- `protocol::data_types::Result`. -/
abbrev DTResult (α : Type) := Except DataTypeError α

/-- Reinterpret a 32-bit pattern (a `Nat` below `2^32`) as the signed value of
the corresponding `i32` (two's complement). -/
def toSigned32 (n : Nat) : Int :=
  if n < 2 ^ 31 then (n : Int) else (n : Int) - 2 ^ 32

/-- Reinterpret a 64-bit pattern as the signed value of the corresponding
`i64`. -/
def toSigned64 (n : Nat) : Int :=
  if n < 2 ^ 63 then (n : Int) else (n : Int) - 2 ^ 64

/-- The 32-bit two's-complement bit pattern of an `i32` value. -/
def toBits32 (v : Int) : Nat := (v % 2 ^ 32).toNat

/-- The 16-bit two's-complement bit pattern of an `i16` value. -/
def toBits16 (v : Int) : Nat := (v % 2 ^ 16).toNat

/-- Rust `value as usize` applied to the `i32` whose bit pattern is `n`
(64-bit platform): negative values sign-extend to a huge unsigned number. -/
def toUsize64 (n : Nat) : Nat :=
  if n < 2 ^ 31 then n else 2 ^ 64 - 2 ^ 32 + n

/-- Big-endian interpretation of a byte list, as done by the `get_u64` /
`get_i32` family of `bytes::Buf` accessors. -/
def beBytesToNat (bs : List Nat) : Nat :=
  bs.foldl (fun acc b => acc * 256 + b) 0

/-- Big-endian serialization of `v` into `k` bytes (`put_u64` for `k = 8`). -/
def natToBeBytes : Nat → Nat → List Nat
  | 0, _ => []
  | k + 1, v => natToBeBytes k (v / 256) ++ [v % 256]

/-! ## bool (`impl DataType for bool`) -/

/-- `bool::read_from`: one byte; the result is whether that byte is `0x01`.
`OutOfBytes("Boolean")` on an empty buffer. -/
def Bool.read_from (src : List Nat) : DTResult (Bool × List Nat) :=
  match src with
  | b :: rest => .ok (b == 0x01, rest)
  | [] => .error (.outOfBytes "Boolean")

/-- `bool::write_to`: the source writes `0` when `self` is true and `1` when
it is false. -/
def Bool.write_to (b : Bool) : List Nat :=
  if b then [0] else [1]

/-! ## Int / Long (`impl DataType for Int`, `impl DataType for Long`)

The source guards both reads with `src.remaining() >= 2` and then calls
`get_i32` / `get_i64`, which panic when fewer than 4 / 8 bytes remain.
`ReadOutcome.panic` models that panic. -/

/-- Outcome of a read that may panic inside the `bytes` accessors. -/
inductive ReadOutcome (α : Type) where
  | ok (value : α) (rest : List Nat)
  | error (e : DataTypeError)
  | panic
  deriving DecidableEq, Repr

/-- `Int::read_from` (`Int` is `i32`): guard `remaining() >= 2`, then
`get_i32` consumes 4 big-endian bytes, panicking if fewer than 4 remain. -/
def Int.read_from (src : List Nat) : ReadOutcome Int :=
  if 2 ≤ src.length then
    if 4 ≤ src.length then
      .ok (toSigned32 (beBytesToNat (src.take 4))) (src.drop 4)
    else
      .panic
  else
    .error (.outOfBytes "Int")

/-- `Long::read_from` (`Long` is `i64`): guard `remaining() >= 2`, then
`get_i64` consumes 8 big-endian bytes, panicking if fewer than 8 remain. -/
def Long.read_from (src : List Nat) : ReadOutcome Int :=
  if 2 ≤ src.length then
    if 8 ≤ src.length then
      .ok (toSigned64 (beBytesToNat (src.take 8))) (src.drop 8)
    else
      .panic
  else
    .error (.outOfBytes "Long")

/-- `UnsignedByte::read_from` (`u8`): one byte. -/
def UnsignedByte.read_from (src : List Nat) : DTResult (Nat × List Nat) :=
  match src with
  | b :: rest => .ok (b, rest)
  | [] => .error (.outOfBytes "Unsigned Byte")

/-! ## VarInt -/

namespace VarInt

/-- `VarInt::write_to`, with the value already cast to its `u32` bit pattern
(`let mut value = self.value as u32`).  Each iteration emits
`value & 0x7F`, shifts right by 7, and sets the high bit of the emitted
byte when more bytes follow. -/
def write_to (value : Nat) : List Nat :=
  if value >>> 7 = 0 then
    [value &&& 0x7F]
  else
    ((value &&& 0x7F) ||| 0x80) :: write_to (value >>> 7)
termination_by value
decreasing_by
  rw [Nat.shiftRight_eq_div_pow] at *
  exact Nat.div_lt_self (by omega) (by norm_num)

/-- The loop of `VarInt::read_from`.  `numRead` is the count of bytes already
consumed, `result` the accumulated `i32` bit pattern.  The shift
`(value as i32) << (7 * (num_read - 1))` truncates to 32 bits. -/
def read_loop : Nat → Nat → List Nat → DTResult (Nat × List Nat)
  | _, _, [] => .error (.outOfBytes "VarInt")
  | numRead, result, b :: rest =>
    if numRead + 1 > 5 then
      .error (.malformed "VarInt" "too many bytes")
    else
      let value := b &&& 0x7F
      let result2 := result ||| ((value <<< (7 * numRead)) % 2 ^ 32)
      if b &&& 0x80 = 0 then
        .ok (result2, rest)
      else
        read_loop (numRead + 1) result2 rest

/-- `VarInt::read_from`: consumes bytes from the front of the buffer. -/
def read_from (src : List Nat) : DTResult (Nat × List Nat) :=
  read_loop 0 0 src

/-- The loop of `VarInt::careful_read_from`: iterates over the buffer
contents without consuming; on success reports how many bytes to advance. -/
def careful_loop : Nat → Nat → List Nat → DTResult (Nat × Nat)
  | _, _, [] => .error (.outOfBytes "VarInt")
  | i, result, b :: rest =>
    if i + 1 > 5 then
      .error (.malformed "VarInt" "too many bytes")
    else
      let value := b &&& 0x7F
      let result2 := result ||| ((value <<< (7 * i)) % 2 ^ 32)
      if b &&& 0x80 = 0 then
        .ok (result2, i + 1)
      else
        careful_loop (i + 1) result2 rest

/-- `VarInt::careful_read_from`: advances the buffer only on success. -/
def careful_read_from (src : List Nat) : DTResult (Nat × List Nat) :=
  match careful_loop 0 0 src with
  | .ok (v, consumed) => .ok (v, src.drop consumed)
  | .error e => .error e

/-- `u32::leading_zeros` of the 32-bit pattern `n`: 32 minus the bit length.
Rust computes `self.value.leading_zeros()` on the `i32`; `i32::leading_zeros`
counts leading zeros of the two's-complement bit pattern, which is the same
number. -/
def leadingZeros32 (n : Nat) : Nat := 32 - Nat.size n

/-- `VarInt::size`: `max((num_bits / 7.0).ceil(), 1)` where
`num_bits = 32 - leading_zeros`.  For `num_bits` in `0..=32` the `f32`
division and ceiling are exact, so the ceiling is the `Nat` ceiling
division `(num_bits + 6) / 7`. -/
def size (n : Nat) : Nat :=
  let numBits := 32 - leadingZeros32 n
  max ((numBits + 6) / 7) 1

end VarInt

/-! ## String (`impl SizedDataType for String`) -/

/-- RFC-3629 UTF-8 validity, the check performed by `String::from_utf8`:
no overlong encodings, no surrogates, nothing above `U+10FFFF`. -/
def utf8Valid : List Nat → Bool
  | [] => true
  | b :: rest =>
    if b < 0x80 then utf8Valid rest
    else if b < 0xC2 then false
    else if b < 0xE0 then
      match rest with
      | c1 :: r => 0x80 ≤ c1 && c1 < 0xC0 && utf8Valid r
      | [] => false
    else if b < 0xF0 then
      match rest with
      | c1 :: c2 :: r =>
        (if b = 0xE0 then 0xA0 ≤ c1 && c1 < 0xC0
         else if b = 0xED then 0x80 ≤ c1 && c1 < 0xA0
         else 0x80 ≤ c1 && c1 < 0xC0)
          && (0x80 ≤ c2 && c2 < 0xC0) && utf8Valid r
      | _ => false
    else if b < 0xF5 then
      match rest with
      | c1 :: c2 :: c3 :: r =>
        (if b = 0xF0 then 0x90 ≤ c1 && c1 < 0xC0
         else if b = 0xF4 then 0x80 ≤ c1 && c1 < 0x90
         else 0x80 ≤ c1 && c1 < 0xC0)
          && (0x80 ≤ c2 && c2 < 0xC0) && (0x80 ≤ c3 && c3 < 0xC0) && utf8Valid r
      | _ => false
    else false
termination_by l => l.length
decreasing_by all_goals simp_arith [List.length]

/-- `String::read_from_sized`.  Strings are kept as their UTF-8 byte lists.
A VarInt length header is read (wrapped in a `Context` on failure); the
`try_into::<usize>()` of the `i32` value fails exactly when the value is
negative, i.e. when its bit pattern is at least `2^31`. -/
def StringDT.read_from_sized (src : List Nat) (size : Nat) :
    DTResult (List Nat × List Nat) :=
  match VarInt.read_from src with
  | .error e => .error (.context e "While reading String length header")
  | .ok (lenBits, rest) =>
    if 2 ^ 31 ≤ lenBits then
      .error (.malformed "String" "bad value for length prefix")
    else
      let length := lenBits
      if length > size then
        .error (.malformed "String"
          ("length header too large for string of max size " ++ toString size))
      else if length ≤ rest.length then
        let data := rest.take length
        if utf8Valid data then .ok (data, rest.drop length)
        else .error (.malformed "String" "malformed UTF8 string")
      else
        .error (.outOfBytes "String")

/-! ## Array of T (`impl<T: DataType> SizedDataType for Vec<T>`) -/

/-- The element loop of `Vec::<T>::read_from_sized`: read elements until the
vector holds `array_size` of them.  Each successful iteration adds exactly
one element, so the remaining count is the recursion measure. -/
def Vec.read_loop {α : Type} (readT : List Nat → DTResult (α × List Nat)) :
    Nat → List Nat → DTResult (List α × List Nat)
  | 0, src => .ok ([], src)
  | n + 1, src =>
    match readT src with
    | .ok (v, src2) =>
      match Vec.read_loop readT n src2 with
      | .ok (vs, src3) => .ok (v :: vs, src3)
      | .error e => .error e
    | .error (.outOfBytes s) => .error (.outOfBytes ("Array of " ++ s))
    | .error e => .error (.context e "Error parsing element of Array")

/-- `Vec::<T>::read_from_sized`, parameterized by the element reader
`T::read_from`.  The count header is `VarInt::read_from(src)?.value() as
usize`: a negative `i32` wraps to a huge unsigned number. -/
def Vec.read_from_sized {α : Type} (readT : List Nat → DTResult (α × List Nat))
    (src : List Nat) (size : Nat) : DTResult (List α × List Nat) :=
  match VarInt.read_from src with
  | .error e => .error e
  | .ok (lenBits, rest) =>
    let array_size := toUsize64 lenBits
    if array_size > size then
      .error (.malformed "ByteArray"
        ("header length " ++ toString array_size
          ++ " longer than max size of " ++ toString size))
    else
      Vec.read_loop readT array_size rest

/-! ## Position (`impl DataType for Position`) -/

/-- The `Position` struct: `x: i32`, `z: i32`, `y: i16`, modelled as `Int`
fields. -/
structure Position where
  x : Int
  z : Int
  y : Int
  deriving DecidableEq, Repr

/-- `Position::read_from`: 8 bytes as a big-endian `u64`; `x` is the top 26
bits, `z` the middle 26 (`val << 26 >> 38` with `u64` truncation), `y` the
low 12; each field is then sign-adjusted as a two's-complement value of its
width. -/
def Position.read_from (src : List Nat) : DTResult (Position × List Nat) :=
  if 8 ≤ src.length then
    let val := beBytesToNat (src.take 8)
    let xb := val >>> 38
    let zb := ((val <<< 26) % 2 ^ 64) >>> 38
    let yb := val &&& 0xFFF
    let x : Int := if (2 ^ 25 : Nat) ≤ xb then (xb : Int) - 2 ^ 26 else (xb : Int)
    let z : Int := if (2 ^ 25 : Nat) ≤ zb then (zb : Int) - 2 ^ 26 else (zb : Int)
    let y : Int := if (2 ^ 11 : Nat) ≤ yb then (yb : Int) - 2 ^ 12 else (yb : Int)
    .ok ({ x := x, z := z, y := y }, src.drop 8)
  else
    .error (.outOfBytes "Position")

/-- `Position::write_to`: the source adds `1 << 25` to a negative `x`
(but `1 << 26` to a negative `z` and `1 << 12` to a negative `y`), masks each
field, packs them into a `u64` and emits it big-endian.  The masks operate on
the two's-complement bit patterns of the `i32` / `i16` values. -/
def Position.write_to (p : Position) : List Nat :=
  let x := if p.x < 0 then p.x + 2 ^ 25 else p.x
  let y := if p.y < 0 then p.y + 2 ^ 12 else p.y
  let z := if p.z < 0 then p.z + 2 ^ 26 else p.z
  let val := ((toBits32 x &&& 0x3FFFFFF) <<< 38)
    ||| ((toBits32 z &&& 0x3FFFFFF) <<< 12)
    ||| (toBits16 y &&& 0xFFF)
  natToBeBytes 8 val

/-! ## Inbound frame decoder (`codec.rs`, encryption disabled)

`ServerboundDecoder::decode` with `decrypter = None` operates directly on
the source buffer.  `src.reserve(...)` only grows capacity, so it has no
semantic content here. -/

/-- A decoded frame: the `packet_id` VarInt bit pattern and the body bytes. -/
structure ServerboundPacket where
  packet_id : Nat
  data : List Nat
  deriving DecidableEq, Repr

/-- `ServerboundDecoder::decode` (unencrypted path): peek the length header
with `careful_read_from` (which consumes it on success), return the new
buffer; `Ok none` means more bytes are needed. -/
def ServerboundDecoder.decode (src : List Nat) :
    DTResult (Option ServerboundPacket × List Nat) :=
  match VarInt.careful_read_from src with
  | .error (.outOfBytes _) => .ok (none, src)
  | .error e => .error e
  | .ok (lenBits, rest) =>
    let packet_length := toUsize64 lenBits
    if packet_length ≤ rest.length then
      let packet_data := rest.take packet_length
      match VarInt.read_from packet_data with
      | .error e => .error e
      | .ok (id, body) => .ok (some ⟨id, body⟩, rest.drop packet_length)
    else
      .ok (none, rest)

/-- Drive `decode` until it reports that more bytes are needed, collecting
the produced packets.  Fuel bounds the iteration; each produced packet
consumes at least one byte, so `len + 1` fuel suffices. -/
def drainLoop : Nat → List Nat → DTResult (List ServerboundPacket × List Nat)
  | 0, src => .ok ([], src)
  | fuel + 1, src =>
    match ServerboundDecoder.decode src with
    | .ok (none, src2) => .ok ([], src2)
    | .ok (some p, src2) =>
      match drainLoop fuel src2 with
      | .ok (ps, src3) => .ok (p :: ps, src3)
      | .error e => .error e
    | .error e => .error e

/-- Feed the whole byte sequence at once and decode repeatedly. -/
def batchDecode (bs : List Nat) : DTResult (List ServerboundPacket) :=
  (drainLoop (bs.length + 1) bs).map Prod.fst

/-- Feed bytes one at a time, decoding to exhaustion after each byte, as the
framed reader does when bytes trickle in from the socket. -/
def feedBytes : List Nat → List Nat → DTResult (List ServerboundPacket × List Nat)
  | [], buf => .ok ([], buf)
  | b :: bs, buf =>
    match drainLoop (buf.length + 2) (buf ++ [b]) with
    | .ok (ps, buf2) =>
      match feedBytes bs buf2 with
      | .ok (qs, buf3) => .ok (ps ++ qs, buf3)
      | .error e => .error e
    | .error e => .error e

/-- Incremental decoding of a byte sequence, one byte per decoder call. -/
def incrementalDecode (bs : List Nat) : DTResult (List ServerboundPacket) :=
  (feedBytes bs []).map Prod.fst

/-! ## Connection state machine (`src/connection.rs`)

The handler owns `username : Option<String>`, `verify_token : Option<[u8;4]>`
and `current_state`.  External effects (RSA decryption via OpenSSL, the
HTTPS `authenticate` call, the random verify token) are inputs of the step
function; the side effects a handler performs are recorded as an action
trace. -/

/-- The `State` enum of `connection.rs`. -/
inductive CState where
  | handshaking
  | status
  | login
  | encrypt
  | play
  deriving DecidableEq, Repr

/-- The mutable per-connection fields of `ConnectionHandler`. -/
structure Conn where
  username : Option String
  verify_token : Option (List Nat)
  current_state : CState
  deriving DecidableEq, Repr

/-- The fresh `ConnectionHandler` built by `ConnectionHandler::new`. -/
def Conn.new : Conn :=
  { username := none, verify_token := none, current_state := .handshaking }

/-- Side effects performed by `handle_login_encryption_response`, in
program order. -/
inductive ConnAction where
  | enableDecryption (key : List Nat)
  | enableEncryption (key : List Nat)
  | authenticate (username : String) (sharedSecret : List Nat)
  | sendLoginSuccess (username : String)
  | setStatePlay
  | sendJoinGame
  deriving DecidableEq, Repr

/-- How a handler invocation ends: normally, with a fatal error, or with a
Rust panic (an `unwrap()` of `None`, or `unimplemented!()`). -/
inductive HandlerOutcome where
  | ok
  | err (msg : String)
  | panic
  deriving DecidableEq, Repr

/-- `ConnectionHandler::handle_login_encryption_response`.  `secretDec` and
`tokenDec` are the outcomes of the two `RSA_KEY.private_decrypt` calls
(the decrypted bytes, of length `num_bytes`); `auth` is the outcome of
`api::authenticate`.  Returns the performed action trace and the outcome. -/
def handle_login_encryption_response (username : Option String)
    (verify_token : Option (List Nat))
    (secretDec tokenDec : Except String (List Nat))
    (auth : Except String (List Nat)) : List ConnAction × HandlerOutcome :=
  match secretDec with
  | .error e => ([], .err e)
  | .ok secret =>
    if secret.length < 16 then ([], .err "Decryption of shared secret failed")
    else
      match tokenDec with
      | .error e => ([], .err e)
      | .ok token =>
        if token.length < 4 then ([], .err "Decryption of verify token failed")
        else
          match verify_token with
          | none => ([], .panic)
          | some vt =>
            if vt ≠ token.take 4 then ([], .err "Verify token does not match")
            else
              let key := secret.take 16
              match username with
              | none => ([ConnAction.enableDecryption key,
                          ConnAction.enableEncryption key], .panic)
              | some u =>
                match auth with
                | .error e =>
                  ([ConnAction.enableDecryption key,
                    ConnAction.enableEncryption key,
                    ConnAction.authenticate u key], .err e)
                | .ok _uuid =>
                  ([ConnAction.enableDecryption key,
                    ConnAction.enableEncryption key,
                    ConnAction.authenticate u key,
                    ConnAction.sendLoginSuccess u,
                    ConnAction.setStatePlay,
                    ConnAction.sendJoinGame], .ok)

/-- `handshake::NextState`: the parser admits only `1` (Status) and `2`
(Login); any other value fails before `handle_packet` runs. -/
inductive NextState where
  | status
  | login
  deriving DecidableEq, Repr

/-- A successfully parsed serverbound packet as dispatched by
`handle_packet`.  The `encryptionResponse` constructor carries the outcomes
of the environment interactions its handler performs. -/
inductive SPacket where
  | handshake (next : NextState)
  | statusRequest
  | statusPing
  | loginStart (username : String)
  | encryptionResponse (secretDec tokenDec : Except String (List Nat))
      (auth : Except String (List Nat))
  | unknown (id : Nat)
  deriving Repr

/-- Result of one `handle_packet` step: a new connection state, a fatal
error (the connection drops), or a panic. -/
inductive StepResult where
  | ok (c : Conn)
  | err
  | panic
  deriving Repr

/-- `ConnectionHandler::handle_packet`: dispatch on the current state and
the packet id.  `freshToken` is the `rand::random()` verify token minted by
`handle_login_start`.  A packet whose id is not listed for the phase is a
fatal error; the Play phase is `unimplemented!()`. -/
def handle_packet (freshToken : List Nat) (c : Conn) (p : SPacket) : StepResult :=
  match c.current_state with
  | .handshaking =>
    match p with
    | .handshake next =>
      .ok { c with current_state :=
              match next with
              | .status => .status
              | .login => .login }
    | _ => .err
  | .status =>
    match p with
    | .statusRequest => .ok c
    | .statusPing => .ok c
    | _ => .err
  | .login =>
    match p with
    | .loginStart u =>
      .ok { username := some u, verify_token := some freshToken,
            current_state := .encrypt }
    | _ => .err
  | .encrypt =>
    match p with
    | .encryptionResponse sd td auth =>
      match (handle_login_encryption_response c.username c.verify_token
              sd td auth).2 with
      | .ok => .ok { c with current_state := .play }
      | .err _ => .err
      | .panic => .panic
    | _ => .err
  | .play => .panic

/-- Connection states reachable from `ConnectionHandler::new` by any
sequence of successfully handled packets. -/
inductive Reachable : Conn → Prop where
  | init : Reachable Conn.new
  | step {c c2 : Conn} {tok : List Nat} {p : SPacket} :
      Reachable c → handle_packet tok c p = .ok c2 → Reachable c2

/-! ## Arithmetic and bitwise helper lemmas -/

/-- A bit of `a + m * 2 ^ s` below position `s` comes from `a`; at or above
`s` it comes from `m`, provided `a < 2 ^ s`. -/
theorem testBit_add_of_lt {a s : Nat} (h : a < 2 ^ s) (m i : Nat) :
    (a + m * 2 ^ s).testBit i
      = if i < s then a.testBit i else m.testBit (i - s) := by
  rcases Nat.lt_or_ge i s with hi | hi
  · rw [if_pos hi]
    have h2 : a + m * 2 ^ s = a + (m * 2 ^ (s - i)) * 2 ^ i := by
      have hsi : s - i + i = s := by omega
      rw [mul_assoc, ← pow_add, hsi]
    have h3 : m * 2 ^ (s - i) = (m * 2 ^ (s - i - 1)) * 2 := by
      have hsi : s - i - 1 + 1 = s - i := by omega
      rw [mul_assoc, ← pow_succ, hsi]
    rw [Nat.testBit_to_div_mod, Nat.testBit_to_div_mod, h2,
      Nat.add_mul_div_right _ _ (Nat.two_pow_pos i), h3,
      Nat.add_mul_mod_self_right]
  · rw [if_neg (by omega)]
    have h1 : (a + m * 2 ^ s) / 2 ^ i = m / 2 ^ (i - s) := by
      have hsplit : (2 : Nat) ^ i = 2 ^ s * 2 ^ (i - s) := by
        have hsi : s + (i - s) = i := by omega
        rw [← pow_add, hsi]
      rw [hsplit, ← Nat.div_div_eq_div_mul,
        Nat.add_mul_div_right _ _ (Nat.two_pow_pos s),
        Nat.div_eq_of_lt h, Nat.zero_add]
    rw [Nat.testBit_to_div_mod, Nat.testBit_to_div_mod, h1]

/-- Bitwise or of disjoint parts is addition: `a ||| m * 2 ^ s = a + m * 2 ^ s`
when `a < 2 ^ s`. -/
theorem lor_mul_two_pow_of_lt {a s : Nat} (h : a < 2 ^ s) (m : Nat) :
    a ||| m * 2 ^ s = a + m * 2 ^ s := by
  apply Nat.eq_of_testBit_eq
  intro i
  rw [Nat.testBit_lor, testBit_add_of_lt h m i, ← Nat.shiftLeft_eq,
    Nat.testBit_shiftLeft]
  rcases Nat.lt_or_ge i s with hi | hi
  · rw [if_pos hi]
    have hd : decide (i ≥ s) = false := by simp only [decide_eq_false_iff_not]; omega
    rw [hd, Bool.false_and, Bool.or_false]
  · rw [if_neg (by omega)]
    have h1 : a.testBit i = false :=
      Nat.testBit_lt_two_pow (lt_of_lt_of_le h (Nat.pow_le_pow_right (by norm_num) hi))
    have hd : decide (i ≥ s) = true := by simp only [decide_eq_true_eq]; omega
    rw [h1, hd, Bool.true_and, Bool.false_or]

/-- `x &&& 0x7F` is `x % 128`. -/
theorem and127_eq_mod (x : Nat) : x &&& 127 = x % 128 := by
  have h := Nat.and_pow_two_sub_one_eq_mod x 7
  norm_num at h
  exact h

/-- A byte below 128 has a clear high bit. -/
theorem and128_eq_zero {b : Nat} (h : b < 128) : b &&& 128 = 0 := by
  have hb : b < 2 ^ 7 := by simpa using h
  calc b &&& 128 = b &&& 2 ^ 7 := by norm_num
    _ = (b.testBit 7).toNat * 2 ^ 7 := Nat.and_two_pow b 7
    _ = 0 := by rw [Nat.testBit_lt_two_pow hb]; rfl

/-- A byte of the form `r + 128` with `r < 128` has its high bit set. -/
theorem and128_add_ne {r : Nat} (h : r < 128) : (r + 128) &&& 128 ≠ 0 := by
  have h7 : (r + 128).testBit 7 = true := by
    rw [Nat.testBit_to_div_mod]
    norm_num
    omega
  intro hc
  have hcong := congrArg (fun n => n.testBit 7) hc
  simp only [Nat.testBit_and, Nat.zero_testBit] at hcong
  have h128 : (128 : Nat).testBit 7 = true := by
    have he : (128 : Nat) = 2 ^ 7 := by norm_num
    rw [he]
    exact Nat.testBit_two_pow_self
  rw [h7, h128] at hcong
  simp at hcong

/-- Setting the high bit of a 7-bit value adds 128. -/
theorem or128_eq_add {b : Nat} (h : b < 128) : b ||| 128 = b + 128 := by
  have hb : b < 2 ^ 7 := by simpa using h
  have h2 := lor_mul_two_pow_of_lt hb 1
  simpa using h2

/-! ## VarInt write loop: arithmetic form and length -/

/-- `VarInt.write_to` with the bitwise operations written as `%` and `/`. -/
theorem write_to_eq (n : Nat) :
    VarInt.write_to n
      = if n / 128 = 0 then [n % 128]
        else (n % 128 + 128) :: VarInt.write_to (n / 128) := by
  rw [VarInt.write_to]
  have h7 : n >>> 7 = n / 128 := by
    rw [Nat.shiftRight_eq_div_pow]
  rw [h7, and127_eq_mod]
  by_cases h : n / 128 = 0
  · rw [if_pos h, if_pos h]
  · rw [if_neg h, if_neg h, or128_eq_add (Nat.mod_lt n (by norm_num))]

/-- One continuing step of the `VarInt::read_from` loop. -/
theorem read_loop_step {numRead acc b : Nat} {rest : List Nat}
    (hn : numRead + 1 ≤ 5) (hb : ¬ b &&& 128 = 0) :
    VarInt.read_loop numRead acc (b :: rest)
      = VarInt.read_loop (numRead + 1)
          (acc ||| ((b &&& 127) <<< (7 * numRead) % 2 ^ 32)) rest := by
  conv_lhs => rw [VarInt.read_loop]
  rw [if_neg (by omega), if_neg hb]

/-- The terminating step of the `VarInt::read_from` loop. -/
theorem read_loop_done {numRead acc b : Nat} {rest : List Nat}
    (hn : numRead + 1 ≤ 5) (hb : b &&& 128 = 0) :
    VarInt.read_loop numRead acc (b :: rest)
      = .ok (acc ||| ((b &&& 127) <<< (7 * numRead) % 2 ^ 32), rest) := by
  conv_lhs => rw [VarInt.read_loop]
  rw [if_neg (by omega), if_pos hb]

/-- The over-length step of the `VarInt::read_from` loop: a sixth byte is
consumed before the length check fires. -/
theorem read_loop_malformed {numRead acc b : Nat} {rest : List Nat}
    (hn : numRead + 1 > 5) :
    VarInt.read_loop numRead acc (b :: rest)
      = .error (.malformed "VarInt" "too many bytes") := by
  conv_lhs => rw [VarInt.read_loop]
  rw [if_pos hn]

/-- One continuing step of the `VarInt::careful_read_from` loop. -/
theorem careful_loop_step {i acc b : Nat} {rest : List Nat}
    (hn : i + 1 ≤ 5) (hb : ¬ b &&& 128 = 0) :
    VarInt.careful_loop i acc (b :: rest)
      = VarInt.careful_loop (i + 1)
          (acc ||| ((b &&& 127) <<< (7 * i) % 2 ^ 32)) rest := by
  conv_lhs => rw [VarInt.careful_loop]
  rw [if_neg (by omega), if_neg hb]

/-- The over-length step of the `VarInt::careful_read_from` loop. -/
theorem careful_loop_malformed {i acc b : Nat} {rest : List Nat}
    (hn : i + 1 > 5) :
    VarInt.careful_loop i acc (b :: rest)
      = .error (.malformed "VarInt" "too many bytes") := by
  conv_lhs => rw [VarInt.careful_loop]
  rw [if_pos hn]

/-! ## Claim theorems: decoder and fixed-width bugs -/

/-- Claim C1: feeding the decoder byte-at-a-time must produce the same
packets as feeding the whole buffer, with the peeked length header still
available after a "need more" return.  The code violates this: on the
well-formed single frame `[0x01, 0x00]` (length 1, packet id 0, empty body)
batch decoding yields the packet, but byte-at-a-time decoding consumes the
length header on the first call and then fails reading the packet id. -/
theorem C1_decoder_incremental_bug :
    batchDecode [1, 0] = .ok [{ packet_id := 0, data := [] }]
    ∧ incrementalDecode [1, 0] = .error (.outOfBytes "VarInt") :=
  ⟨rfl, rfl⟩

/-- Claim C2: `bool::write_to` is claimed to emit `0x01` for true.  The code
emits `0x00` for true and `0x01` for false, so the read-back of a written
boolean is its negation. -/
theorem C2_bool_wire_bug :
    Bool.write_to true = [0]
    ∧ Bool.write_to false = [1]
    ∧ Bool.read_from (Bool.write_to true) = .ok (false, [])
    ∧ Bool.read_from (Bool.write_to false) = .ok (true, []) :=
  ⟨rfl, rfl, rfl, rfl⟩

/-- Claim C3: the Position round-trip is claimed to preserve in-range
fields.  The code adds `1 << 25` (not `1 << 26`) to a negative `x` in
`write_to`, so `x = -1` reads back as `2^25 - 1 = 33554431`. -/
theorem C3_position_roundtrip_bug :
    Position.read_from (Position.write_to { x := -1, z := 0, y := 0 })
      = .ok ({ x := 33554431, z := 0, y := 0 }, [])
    ∧ (33554431 : Int) ≠ -1 := by
  exact ⟨rfl, by decide⟩

/-- Claim C4: short fixed-width reads are claimed to return `OutOfBytes`.
`Int::read_from` and `Long::read_from` guard with `remaining() >= 2`
regardless of the type width, so buffers of 2..3 (resp. 2..7) bytes reach
`get_i32` / `get_i64`, which panic; only 0..1 byte buffers return
`OutOfBytes`. -/
theorem C4_fixed_width_read_bug :
    Int.read_from [0, 0] = .panic
    ∧ Int.read_from [0, 0, 0] = .panic
    ∧ Long.read_from [0, 0] = .panic
    ∧ Long.read_from [0, 0, 0, 0, 0, 0, 0] = .panic
    ∧ Int.read_from [0] = .error (.outOfBytes "Int")
    ∧ Long.read_from [0] = .error (.outOfBytes "Long") :=
  ⟨rfl, rfl, rfl, rfl, rfl, rfl⟩

/-- Claim C7 (counterexample): on a buffer of exactly five continuation
bytes both readers return `OutOfBytes`, not `Malformed` as claimed. -/
theorem C7_counterexample :
    VarInt.read_from [128, 128, 128, 128, 128] = .error (.outOfBytes "VarInt")
    ∧ VarInt.careful_read_from [128, 128, 128, 128, 128]
        = .error (.outOfBytes "VarInt")
    ∧ ¬ ∃ w r, VarInt.read_from [128, 128, 128, 128, 128]
        = .error (.malformed w r) := by
  refine ⟨rfl, rfl, ?_⟩
  rintro ⟨w, r, h⟩
  rw [show VarInt.read_from [128, 128, 128, 128, 128]
      = .error (.outOfBytes "VarInt") from rfl] at h
  simp at h

/-- Claim C7 (amended): when a sixth byte is present after five bytes that
all have their continuation bit set, both `VarInt::read_from` and
`VarInt::careful_read_from` fail with `Malformed`. -/
theorem C7_amended (b0 b1 b2 b3 b4 b5 : Nat) (rest : List Nat)
    (h0 : b0 &&& 128 ≠ 0) (h1 : b1 &&& 128 ≠ 0) (h2 : b2 &&& 128 ≠ 0)
    (h3 : b3 &&& 128 ≠ 0) (h4 : b4 &&& 128 ≠ 0) :
    VarInt.read_from (b0 :: b1 :: b2 :: b3 :: b4 :: b5 :: rest)
      = .error (.malformed "VarInt" "too many bytes")
    ∧ VarInt.careful_read_from (b0 :: b1 :: b2 :: b3 :: b4 :: b5 :: rest)
      = .error (.malformed "VarInt" "too many bytes") := by
  constructor
  · show VarInt.read_loop 0 0 _ = _
    rw [read_loop_step (by omega) h0, read_loop_step (by omega) h1,
      read_loop_step (by omega) h2, read_loop_step (by omega) h3,
      read_loop_step (by omega) h4, read_loop_malformed (by omega)]
  · unfold VarInt.careful_read_from
    rw [careful_loop_step (by omega) h0, careful_loop_step (by omega) h1,
      careful_loop_step (by omega) h2, careful_loop_step (by omega) h3,
      careful_loop_step (by omega) h4, careful_loop_malformed (by omega)]

/-- Witness for the amended C7 statement at a concrete buffer. -/
theorem C7_amended_witness :
    VarInt.read_from [128, 128, 128, 128, 128, 0]
      = .error (.malformed "VarInt" "too many bytes")
    ∧ VarInt.careful_read_from [128, 128, 128, 128, 128, 0]
      = .error (.malformed "VarInt" "too many bytes") :=
  C7_amended 128 128 128 128 128 0 [] (by decide) (by decide) (by decide)
    (by decide) (by decide)

/-! ## VarInt round trip and size -/

/-- Dividing by 128 drops 7 bits off the binary length. -/
theorem size_div_128 {n : Nat} (h : 128 ≤ n) :
    Nat.size (n / 128) = Nat.size n - 7 := by
  have hs8 : 8 ≤ Nat.size n := by
    have h7 : 7 < Nat.size n := Nat.lt_size.mpr (by simpa using h)
    omega
  apply le_antisymm
  · apply Nat.size_le.mpr
    rw [Nat.div_lt_iff_lt_mul (by norm_num : (0 : Nat) < 128)]
    have e : (2 : Nat) ^ (Nat.size n - 7) * 128 = 2 ^ Nat.size n := by
      have h128 : (128 : Nat) = 2 ^ 7 := by norm_num
      rw [h128, ← pow_add]
      congr 1
      omega
    rw [e]
    exact Nat.lt_size_self n
  · have hstep : Nat.size n - 8 < Nat.size (n / 128) := by
      apply Nat.lt_size.mpr
      rw [Nat.le_div_iff_mul_le (by norm_num : (0 : Nat) < 128)]
      have e : (2 : Nat) ^ (Nat.size n - 8) * 128 = 2 ^ (Nat.size n - 1) := by
        have h128 : (128 : Nat) = 2 ^ 7 := by norm_num
        rw [h128, ← pow_add]
        congr 1
        omega
      rw [e]
      exact Nat.lt_size.mp (by omega)
    omega

/-- The number of bytes `VarInt::write_to` emits, as a function of the
binary length of the value. -/
theorem write_to_length (n : Nat) :
    (VarInt.write_to n).length = max ((Nat.size n + 6) / 7) 1 := by
  induction n using Nat.strong_induction_on with
  | _ n ih =>
    rw [write_to_eq]
    by_cases h0 : n / 128 = 0
    · rw [if_pos h0]
      have hn : n < 128 := by omega
      have hs : Nat.size n ≤ 7 := Nat.size_le.mpr (by simpa using hn)
      simp only [List.length_cons, List.length_nil]
      omega
    · rw [if_neg h0]
      have hn : 128 ≤ n := by omega
      have hs8 : 8 ≤ Nat.size n := by
        have h7 : 7 < Nat.size n := Nat.lt_size.mpr (by simpa using hn)
        omega
      simp only [List.length_cons]
      rw [ih (n / 128) (by omega), size_div_128 hn]
      omega

/-- The `VarInt::read_from` loop inverts the write loop: reading the bytes
of `w` starting at byte index `k` with accumulated low bits `acc` yields
`acc + w * 2 ^ (7 * k)` and consumes the whole encoding. -/
theorem read_loop_write (w : Nat) : ∀ k acc : Nat,
    w < 2 ^ (32 - 7 * k) → k ≤ 4 → acc < 2 ^ (7 * k) →
    VarInt.read_loop k acc (VarInt.write_to w)
      = .ok (acc + w * 2 ^ (7 * k), []) := by
  induction w using Nat.strong_induction_on with
  | _ w ih =>
    intro k acc hw hk hacc
    rw [write_to_eq]
    by_cases h0 : w / 128 = 0
    · rw [if_pos h0]
      have hw128 : w < 128 := by omega
      rw [read_loop_done (by omega) (by
        rw [Nat.mod_eq_of_lt hw128]
        exact and128_eq_zero hw128)]
      have e1 : (w % 128) &&& 127 = w := by
        rw [and127_eq_mod]
        omega
      have hlt : w * 2 ^ (7 * k) < 2 ^ 32 := by
        have h1 : w * 2 ^ (7 * k) < 2 ^ (32 - 7 * k) * 2 ^ (7 * k) :=
          (Nat.mul_lt_mul_right (Nat.two_pow_pos _)).mpr hw
        have h2 : (2 : Nat) ^ (32 - 7 * k) * 2 ^ (7 * k) = 2 ^ 32 := by
          rw [← pow_add]
          congr 1
          omega
        omega
      rw [e1, Nat.shiftLeft_eq, Nat.mod_eq_of_lt hlt,
        lor_mul_two_pow_of_lt hacc]
    · rw [if_neg h0]
      have hw128 : 128 ≤ w := by omega
      have hk3 : k ≤ 3 := by
        by_contra hc
        have hk4 : k = 4 := by omega
        subst hk4
        norm_num at hw
        omega
      rw [read_loop_step (by omega) (and128_add_ne (Nat.mod_lt w (by norm_num)))]
      have e1 : (w % 128 + 128) &&& 127 = w % 128 := by
        rw [and127_eq_mod]
        omega
      have hmlt : (w % 128) * 2 ^ (7 * k) < 2 ^ 32 := by
        have h1 : (w % 128) * 2 ^ (7 * k) < 128 * 2 ^ (7 * k) :=
          (Nat.mul_lt_mul_right (Nat.two_pow_pos _)).mpr (Nat.mod_lt w (by norm_num))
        have h2 : (128 : Nat) * 2 ^ (7 * k) = 2 ^ (7 * k + 7) := by
          have h128 : (128 : Nat) = 2 ^ 7 := by norm_num
          rw [h128, ← pow_add]
          congr 1
          omega
        have h3 : (2 : Nat) ^ (7 * k + 7) ≤ 2 ^ 32 :=
          Nat.pow_le_pow_right (by norm_num) (by omega)
        omega
      rw [e1, Nat.shiftLeft_eq, Nat.mod_eq_of_lt hmlt,
        lor_mul_two_pow_of_lt hacc]
      have e3 : (2 : Nat) ^ (7 * (k + 1)) = 128 * 2 ^ (7 * k) := by
        have h7 : 7 * (k + 1) = 7 + 7 * k := by omega
        rw [h7, pow_add]
        norm_num
      have hrec := ih (w / 128) (by omega) (k + 1)
        (acc + (w % 128) * 2 ^ (7 * k))
        (by
          rw [Nat.div_lt_iff_lt_mul (by norm_num : (0 : Nat) < 128)]
          have e2 : (2 : Nat) ^ (32 - 7 * (k + 1)) * 128 = 2 ^ (32 - 7 * k) := by
            have h128 : (128 : Nat) = 2 ^ 7 := by norm_num
            rw [h128, ← pow_add]
            congr 1
            omega
          rw [e2]
          exact hw)
        (by omega)
        (by
          have hmod : w % 128 ≤ 127 := by omega
          have h1 : (w % 128) * 2 ^ (7 * k) ≤ 127 * 2 ^ (7 * k) :=
            Nat.mul_le_mul_right _ hmod
          have h4 := e3
          omega)
      rw [hrec]
      have hsum : acc + (w % 128) * 2 ^ (7 * k) + w / 128 * 2 ^ (7 * (k + 1))
          = acc + w * 2 ^ (7 * k) := by
        rw [e3]
        have hmd := Nat.mod_add_div w 128
        conv_rhs => rw [← hmd]
        ring
      rw [hsum]

/-- The 32-bit pattern of an `i32` is below `2 ^ 32`. -/
theorem toBits32_lt (v : Int) : toBits32 v < 2 ^ 32 := by
  unfold toBits32
  have h2 := Int.emod_lt_of_pos v (show (0 : Int) < 2 ^ 32 by norm_num)
  omega

/-- Converting an in-range `i32` value to its bit pattern and back is the
identity. -/
theorem toSigned32_toBits32 {v : Int} (h1 : -(2 ^ 31) ≤ v) (h2 : v < 2 ^ 31) :
    toSigned32 (toBits32 v) = v := by
  unfold toSigned32 toBits32
  have hlt := Int.emod_lt_of_pos v (show (0 : Int) < 2 ^ 32 by norm_num)
  have hge := Int.emod_nonneg v (show (2 ^ 32 : Int) ≠ 0 by norm_num)
  have hmod : v % 2 ^ 32 = if 0 ≤ v then v else v + 2 ^ 32 := by
    split
    · omega
    · omega
  split
  · omega
  · omega

/-- A negative in-range `i32` has a bit pattern at least `2 ^ 31`. -/
theorem toBits32_neg {v : Int} (h1 : -(2 ^ 31) ≤ v) (hv : v < 0) :
    2 ^ 31 ≤ toBits32 v := by
  unfold toBits32
  have hmod : v % 2 ^ 32 = v + 2 ^ 32 := by omega
  omega

/-- Claim C5: for every `i32` value `v`, reading back the bytes written by
`VarInt::write_to` recovers `v`, the encoding is at most five bytes, and
every negative `v` encodes to exactly five bytes. -/
theorem C5_varint_roundtrip (v : Int) (h1 : -(2 ^ 31) ≤ v) (h2 : v < 2 ^ 31) :
    VarInt.read_from (VarInt.write_to (toBits32 v)) = .ok (toBits32 v, [])
    ∧ toSigned32 (toBits32 v) = v
    ∧ (VarInt.write_to (toBits32 v)).length ≤ 5
    ∧ (v < 0 → (VarInt.write_to (toBits32 v)).length = 5) := by
  have hn := toBits32_lt v
  have hsize : Nat.size (toBits32 v) ≤ 32 := Nat.size_le.mpr hn
  have hlen := write_to_length (toBits32 v)
  refine ⟨?_, toSigned32_toBits32 h1 h2, by omega, ?_⟩
  · have h := read_loop_write (toBits32 v) 0 0 (by simpa using hn)
      (by norm_num) (by norm_num)
    unfold VarInt.read_from
    simpa using h
  · intro hv
    have hge := toBits32_neg h1 hv
    have hs32 : 32 ≤ Nat.size (toBits32 v) := by
      have h31 : 31 < Nat.size (toBits32 v) := Nat.lt_size.mpr (by simpa using hge)
      omega
    omega

/-- Witness for C5 at `v = -1`. -/
theorem C5_varint_roundtrip_witness :
    (-(2 ^ 31) : Int) ≤ -1 ∧ (-1 : Int) < 2 ^ 31
    ∧ (VarInt.read_from (VarInt.write_to (toBits32 (-1)))
        = .ok (toBits32 (-1), [])
      ∧ toSigned32 (toBits32 (-1)) = -1
      ∧ (VarInt.write_to (toBits32 (-1))).length ≤ 5
      ∧ ((-1 : Int) < 0 → (VarInt.write_to (toBits32 (-1))).length = 5)) :=
  ⟨by norm_num, by norm_num, C5_varint_roundtrip (-1) (by norm_num) (by norm_num)⟩

/-- `VarInt::size` in terms of the binary length, for in-range patterns. -/
theorem varint_size_eq {n : Nat} (hn : n < 2 ^ 32) :
    VarInt.size n = max ((Nat.size n + 6) / 7) 1 := by
  unfold VarInt.size VarInt.leadingZeros32
  have hs : Nat.size n ≤ 32 := Nat.size_le.mpr hn
  have e : 32 - (32 - Nat.size n) = Nat.size n := by omega
  rw [e]

/-- Claim C6: `VarInt::size` equals `max(1, ceil((32 - clz(u32 bits)) / 7))`
(the Rust source computes `leading_zeros` of the `i32`, which counts zeros
of the same two's-complement bit pattern), it is 5 for every negative value,
and it equals the number of bytes `VarInt::write_to` emits. -/
theorem C6_varint_size (v : Int) (h1 : -(2 ^ 31) ≤ v) (h2 : v < 2 ^ 31) :
    VarInt.size (toBits32 v)
        = max ((32 - VarInt.leadingZeros32 (toBits32 v) + 6) / 7) 1
    ∧ (v < 0 → VarInt.size (toBits32 v) = 5)
    ∧ VarInt.size (toBits32 v) = (VarInt.write_to (toBits32 v)).length := by
  have hn := toBits32_lt v
  have hsize : Nat.size (toBits32 v) ≤ 32 := Nat.size_le.mpr hn
  refine ⟨rfl, ?_, ?_⟩
  · intro hv
    have hge := toBits32_neg h1 hv
    have hs32 : 32 ≤ Nat.size (toBits32 v) := by
      have h31 : 31 < Nat.size (toBits32 v) := Nat.lt_size.mpr (by simpa using hge)
      omega
    rw [varint_size_eq hn]
    omega
  · rw [varint_size_eq hn, write_to_length]

/-- Witness for C6 at `v = -2`. -/
theorem C6_varint_size_witness :
    (-(2 ^ 31) : Int) ≤ -2 ∧ (-2 : Int) < 2 ^ 31
    ∧ (VarInt.size (toBits32 (-2))
          = max ((32 - VarInt.leadingZeros32 (toBits32 (-2)) + 6) / 7) 1
      ∧ ((-2 : Int) < 0 → VarInt.size (toBits32 (-2)) = 5)
      ∧ VarInt.size (toBits32 (-2)) = (VarInt.write_to (toBits32 (-2))).length) :=
  ⟨by norm_num, by norm_num, C6_varint_size (-2) (by norm_num) (by norm_num)⟩

/-! ## Negative length headers (String and Array reads) -/

/-- Claim C10: when the VarInt length/count header of a sized read decodes
to a negative `i32` (bit pattern at least `2 ^ 31`), both
`String::read_from_sized` and `Vec::<T>::read_from_sized` fail with
`Malformed` — for any element reader and any cap used in this codebase —
without reading an element. -/
theorem C10_negative_length_header (α : Type)
    (readT : List Nat → DTResult (α × List Nat)) (src rest : List Nat)
    (n size : Nat) (hread : VarInt.read_from src = .ok (n, rest))
    (hneg : 2 ^ 31 ≤ n) (hsize : size < 2 ^ 63) :
    StringDT.read_from_sized src size
        = .error (.malformed "String" "bad value for length prefix")
    ∧ Vec.read_from_sized readT src size
        = .error (.malformed "ByteArray"
            ("header length " ++ toString (toUsize64 n)
              ++ " longer than max size of " ++ toString size)) := by
  constructor
  · unfold StringDT.read_from_sized
    simp only [hread]
    rw [if_pos hneg]
  · unfold Vec.read_from_sized
    simp only [hread]
    have husize : toUsize64 n = 2 ^ 64 - 2 ^ 32 + n := by
      unfold toUsize64
      rw [if_neg (by omega)]
    rw [husize, if_pos (by omega)]

/-- Witness for C10 at the encoding of `-1` with cap 16. -/
theorem C10_negative_length_header_witness :
    VarInt.read_from [255, 255, 255, 255, 15] = .ok (4294967295, [])
    ∧ 2 ^ 31 ≤ 4294967295 ∧ (16 : Nat) < 2 ^ 63
    ∧ (StringDT.read_from_sized [255, 255, 255, 255, 15] 16
          = .error (.malformed "String" "bad value for length prefix")
      ∧ Vec.read_from_sized UnsignedByte.read_from [255, 255, 255, 255, 15] 16
          = .error (.malformed "ByteArray"
              ("header length " ++ toString (toUsize64 4294967295)
                ++ " longer than max size of " ++ toString 16))) :=
  ⟨rfl, by norm_num, by norm_num,
    C10_negative_length_header Nat UnsignedByte.read_from
      [255, 255, 255, 255, 15] [] 4294967295 16 rfl (by norm_num) (by norm_num)⟩

/-! ## Encrypt → Play step contract -/

/-- Claim C8: on `EncryptionResponse`, a short shared secret, a short verify
token, or a verify-token mismatch is fatal with no cipher enabled and no
`LoginSuccess` sent; when all checks pass, both ciphers are enabled (keyed
by the first 16 bytes of the secret) before the `authenticate` call, a
failing `authenticate` is fatal with nothing sent, and on success
`LoginSuccess` is sent, then the state becomes Play, then `JoinGame` is
sent, in that order. -/
theorem C8_encrypt_play_contract (u : String) (vt : List Nat)
    (secretDec tokenDec : Except String (List Nat))
    (auth : Except String (List Nat)) :
    (∀ s, secretDec = .ok s → s.length < 16 →
      handle_login_encryption_response (some u) (some vt) secretDec tokenDec auth
        = ([], .err "Decryption of shared secret failed"))
    ∧ (∀ s t, secretDec = .ok s → 16 ≤ s.length → tokenDec = .ok t →
        t.length < 4 →
      handle_login_encryption_response (some u) (some vt) secretDec tokenDec auth
        = ([], .err "Decryption of verify token failed"))
    ∧ (∀ s t, secretDec = .ok s → 16 ≤ s.length → tokenDec = .ok t →
        4 ≤ t.length → vt ≠ t.take 4 →
      handle_login_encryption_response (some u) (some vt) secretDec tokenDec auth
        = ([], .err "Verify token does not match"))
    ∧ (∀ s t e, secretDec = .ok s → 16 ≤ s.length → tokenDec = .ok t →
        4 ≤ t.length → vt = t.take 4 → auth = .error e →
      handle_login_encryption_response (some u) (some vt) secretDec tokenDec auth
        = ([.enableDecryption (s.take 16), .enableEncryption (s.take 16),
            .authenticate u (s.take 16)], .err e))
    ∧ (∀ s t uuid, secretDec = .ok s → 16 ≤ s.length → tokenDec = .ok t →
        4 ≤ t.length → vt = t.take 4 → auth = .ok uuid →
      handle_login_encryption_response (some u) (some vt) secretDec tokenDec auth
        = ([.enableDecryption (s.take 16), .enableEncryption (s.take 16),
            .authenticate u (s.take 16), .sendLoginSuccess u,
            .setStatePlay, .sendJoinGame], .ok)) := by
  refine ⟨?_, ?_, ?_, ?_, ?_⟩
  · intro s hs hlen
    subst hs
    simp only [handle_login_encryption_response]
    rw [if_pos hlen]
  · intro s t hs hslen ht htlen
    subst hs
    subst ht
    simp only [handle_login_encryption_response]
    rw [if_neg (by omega), if_pos htlen]
  · intro s t hs hslen ht htlen hne
    subst hs
    subst ht
    simp only [handle_login_encryption_response]
    rw [if_neg (by omega), if_neg (by omega), if_pos hne]
  · intro s t e hs hslen ht htlen heq hauth
    subst hs
    subst ht
    subst hauth
    simp only [handle_login_encryption_response]
    rw [if_neg (by omega), if_neg (by omega), if_neg (by simp [heq])]
  · intro s t uuid hs hslen ht htlen heq hauth
    subst hs
    subst ht
    subst hauth
    simp only [handle_login_encryption_response]
    rw [if_neg (by omega), if_neg (by omega), if_neg (by simp [heq])]

/-- Witness for C8 on a concrete successful exchange. -/
theorem C8_encrypt_play_contract_witness :
    handle_login_encryption_response (some "Notch") (some [1, 2, 3, 4])
        (.ok (List.replicate 16 7)) (.ok [1, 2, 3, 4, 9]) (.ok [0])
      = ([.enableDecryption ((List.replicate 16 7).take 16),
          .enableEncryption ((List.replicate 16 7).take 16),
          .authenticate "Notch" ((List.replicate 16 7).take 16),
          .sendLoginSuccess "Notch", .setStatePlay, .sendJoinGame], .ok) :=
  (C8_encrypt_play_contract "Notch" [1, 2, 3, 4] (.ok (List.replicate 16 7))
      (.ok [1, 2, 3, 4, 9]) (.ok [0])).2.2.2.2
    (List.replicate 16 7) [1, 2, 3, 4, 9] [0] rfl (by decide) rfl (by decide)
    (by decide) rfl

/-! ## Connection-state invariant -/

/-- With both `username` and `verify_token` present, the encryption-response
handler never reaches an `unwrap()` panic. -/
theorem handler_no_panic (u : String) (vt : List Nat)
    (sd td auth : Except String (List Nat)) :
    (handle_login_encryption_response (some u) (some vt) sd td auth).2
      ≠ HandlerOutcome.panic := by
  rcases sd with e | s <;> rcases td with e2 | t <;> rcases auth with e3 | uu <;>
    simp only [handle_login_encryption_response] <;> (try split_ifs) <;> simp

/-- Claim C9: in every reachable connection state whose phase is Encrypt or
Play, both `username` and `verify_token` are set; consequently, in the
Encrypt phase no packet can drive `handle_packet` into a panic (the
`unwrap()` calls of `handle_login_encryption_response` cannot fire). -/
theorem C9_connection_invariant (c : Conn) (h : Reachable c) :
    ((c.current_state = CState.encrypt ∨ c.current_state = CState.play) →
      c.username.isSome ∧ c.verify_token.isSome)
    ∧ (c.current_state = CState.encrypt →
        ∀ tok p, handle_packet tok c p ≠ .panic) := by
  have hinv : ∀ c0 : Conn, Reachable c0 →
      ((c0.current_state = CState.encrypt ∨ c0.current_state = CState.play) →
        c0.username.isSome ∧ c0.verify_token.isSome) := by
    intro c0 h0
    induction h0 with
    | init =>
      intro hor
      rcases hor with hh | hh <;> simp [Conn.new] at hh
    | @step c1 c2 tok p hr heq ih =>
      intro hor
      cases hs : c1.current_state with
      | handshaking =>
        cases p <;> simp [handle_packet, hs] at heq
        rename_i next
        cases next <;> simp at heq <;> rw [← heq] at hor <;> simp at hor
      | status =>
        cases p <;> simp [handle_packet, hs] at heq <;> rw [← heq]
        · exact ih (by rw [heq]; exact hor)
        · exact ih (by rw [heq]; exact hor)
      | login =>
        cases p <;> simp [handle_packet, hs] at heq
        rw [← heq]
        simp
      | encrypt =>
        cases p with
        | encryptionResponse sd td auth =>
          simp only [handle_packet, hs] at heq
          rcases h2 : (handle_login_encryption_response c1.username
              c1.verify_token sd td auth).2 with _ | msg | _
          · rw [h2] at heq
            simp at heq
            rw [← heq]
            have hsome := ih (Or.inl hs)
            simpa using hsome
          · rw [h2] at heq
            simp at heq
          · rw [h2] at heq
            simp at heq
        | handshake next => simp [handle_packet, hs] at heq
        | statusRequest => simp [handle_packet, hs] at heq
        | statusPing => simp [handle_packet, hs] at heq
        | loginStart u2 => simp [handle_packet, hs] at heq
        | unknown id => simp [handle_packet, hs] at heq
      | play =>
        simp [handle_packet, hs] at heq
  refine ⟨hinv c h, ?_⟩
  intro hs tok p
  have hsome := hinv c h (Or.inl hs)
  obtain ⟨u, hu⟩ := Option.isSome_iff_exists.mp hsome.1
  obtain ⟨vt, hvt⟩ := Option.isSome_iff_exists.mp hsome.2
  cases p with
  | handshake next => simp [handle_packet, hs]
  | statusRequest => simp [handle_packet, hs]
  | statusPing => simp [handle_packet, hs]
  | loginStart u2 => simp [handle_packet, hs]
  | unknown id => simp [handle_packet, hs]
  | encryptionResponse sd td auth =>
    simp only [handle_packet, hs]
    rw [hu, hvt]
    have hnp := handler_no_panic u vt sd td auth
    rcases h2 : (handle_login_encryption_response (some u) (some vt)
        sd td auth).2 with _ | msg | _
    · simp
    · simp
    · exact absurd h2 hnp

/-- Witness for C9 at a concrete reachable Encrypt-phase state. -/
theorem C9_connection_invariant_witness :
    (⟨some "Notch", some [9, 9, 9, 9], CState.encrypt⟩ : Conn).username.isSome
    ∧ (⟨some "Notch", some [9, 9, 9, 9], CState.encrypt⟩ : Conn).verify_token.isSome := by
  have h1 : Reachable ⟨none, none, CState.login⟩ :=
    Reachable.step Reachable.init
      (show handle_packet [] Conn.new (.handshake .login)
        = .ok ⟨none, none, CState.login⟩ from rfl)
  have h2 : Reachable ⟨some "Notch", some [9, 9, 9, 9], CState.encrypt⟩ :=
    Reachable.step h1
      (show handle_packet [9, 9, 9, 9] ⟨none, none, CState.login⟩
          (.loginStart "Notch")
        = .ok ⟨some "Notch", some [9, 9, 9, 9], CState.encrypt⟩ from rfl)
  exact (C9_connection_invariant _ h2).1 (Or.inl rfl)

end Server


